import Mathlib

/-!
Verification of the dynamic_buffer driver (src/problems/dynamic_buffer/run.cpp)
against its natural-language specification.

A C++ std::string is a byte sequence and is modelled as a List Nat of byte
values; output written to stdout is likewise a List Nat of bytes.  Components
declared only in the missing header dynamic_preprocessor.h (Row, Value layout,
DynamicPreprocessor) are modelled from the spec where noted.
-/

namespace DynBuf

/-- Byte of the lowercase hexadecimal digit for n < 16, as std::hex prints it. -/
def hexDigitByte (n : Nat) : Nat := if n < 10 then 48 + n else 87 + n

/-- Hexadecimal digits of n, most significant first, as an ostream with std::hex
prints a nonnegative integer. -/
def natToHex (n : Nat) : List Nat :=
  if n < 16 then [hexDigitByte n]
  else natToHex (n / 16) ++ [hexDigitByte (n % 16)]
termination_by n
decreasing_by exact Nat.div_lt_self (by omega) (by omega)

/-- Left-padding of l with the byte fill up to width w: models std::setw with
std::setfill on an ostream. -/
def padLeft (w fill : Nat) (l : List Nat) : List Nat :=
  List.replicate (w - l.length) fill ++ l

/-- Translation of the switch body of escape_json_string in run.cpp for one
byte: the seven two-character escapes, then the setw(4) hex u-escape for other
bytes below 0x20, else the byte itself. -/
def escape_byte (b : Nat) : List Nat :=
  if b = 34 then [92, 34]
  else if b = 92 then [92, 92]
  else if b = 8 then [92, 98]
  else if b = 12 then [92, 102]
  else if b = 10 then [92, 110]
  else if b = 13 then [92, 114]
  else if b = 9 then [92, 116]
  else if b < 32 then [92, 117] ++ padLeft 4 48 (natToHex b)
  else [b]

/-- Translation of escape_json_string from run.cpp, applied byte by byte. -/
def escape_json_string (s : List Nat) : List Nat := (s.map escape_byte).flatten

/-- Spec reading of the escaping table, written from the spec words: quote,
backslash, backspace, form-feed, newline, carriage return and tab map to their
two-character escapes, every other byte below 0x20 to a four-hex-digit
u-escape of its value, and every other byte passes through unchanged. -/
def spec_escape_byte (b : Nat) : List Nat :=
  if b = 34 then [92, 34]
  else if b = 92 then [92, 92]
  else if b = 8 then [92, 98]
  else if b = 12 then [92, 102]
  else if b = 10 then [92, 110]
  else if b = 13 then [92, 114]
  else if b = 9 then [92, 116]
  else if b < 32 then [92, 117, 48, 48, hexDigitByte (b / 16), hexDigitByte (b % 16)]
  else [b]

/-- Spec reading of string escaping applied to a whole byte string. -/
def spec_escape_string (s : List Nat) : List Nat := (s.map spec_escape_byte).flatten

/-- Observable shape of a C++ double as run.cpp uses it: value_to_json tests
std::isnan and std::isinf and otherwise prints the value with precision 17;
that finite printed text is library-defined iostream behaviour and is carried
here as data. -/
structure CppDouble where
  isNan : Bool
  isInf : Bool
  text17 : List Nat
deriving DecidableEq

/-- Tagged scalar value, per the Value/ValueType interface run.cpp consumes
(Null, Bool, Int, Double, String). -/
inductive Value where
  | null
  | bool (b : Bool)
  | int (i : Int)
  | double (d : CppDouble)
  | string (s : List Nat)
deriving DecidableEq

/-- Decimal digits of n, most significant first, as std::to_string prints a
nonnegative integer. -/
def natToDecimal (n : Nat) : List Nat :=
  if n < 10 then [48 + n]
  else natToDecimal (n / 10) ++ [48 + n % 10]
termination_by n
decreasing_by exact Nat.div_lt_self (by omega) (by omega)

/-- Translation of std::to_string on a 64-bit signed integer value. -/
def int_to_string (i : Int) : List Nat :=
  if i < 0 then 45 :: natToDecimal i.natAbs else natToDecimal i.toNat

/-- Translation of value_to_json from run.cpp. -/
def value_to_json : Value → List Nat
  | .null => [110, 117, 108, 108]
  | .bool true => [116, 114, 117, 101]
  | .bool false => [102, 97, 108, 115, 101]
  | .int i => int_to_string i
  | .double d => if d.isNan || d.isInf then [110, 117, 108, 108] else d.text17
  | .string s => [34] ++ escape_json_string s ++ [34]

/-- Modelled from the spec: the Row type lives in the missing
dynamic_preprocessor.h; spec section 3 defines it as an ordered sequence of
(field name, Value) pairs with insertion order preserved, which the range-for
loop of row_to_json traverses in that order. -/
abbrev Row := List (List Nat × Value)

/-- Translation of the member loop of row_to_json from run.cpp, including its
first-member flag that suppresses the separator before the first member. -/
def row_members (first : Bool) : Row → List Nat
  | [] => []
  | (k, v) :: rest =>
      (if first then [] else [44, 32]) ++
        [34] ++ escape_json_string k ++ [34, 58, 32] ++ value_to_json v ++
        row_members false rest

/-- Translation of row_to_json from run.cpp: an opening brace byte, the
members, a closing brace byte. -/
def row_to_json (row : Row) : List Nat :=
  [123] ++ row_members true row ++ [125]

/-- Spec reading of one serialized object member: escaped double-quoted field
name, colon and space, then the serialized value. -/
def spec_member (kv : List Nat × Value) : List Nat :=
  [34] ++ escape_json_string kv.1 ++ [34, 58, 32] ++ value_to_json kv.2

/-- Interleaving of a separator between list elements: the spec side of the
exact comma-space member separator contract. -/
def joinSep (sep : List Nat) : List (List Nat) → List Nat
  | [] => []
  | [x] => x
  | x :: y :: rest => x ++ sep ++ joinSep sep (y :: rest)

theorem escape_byte_eq_spec (b : Nat) : escape_byte b = spec_escape_byte b := by
  by_cases hb : b < 32
  · interval_cases b <;>
      simp [escape_byte, spec_escape_byte, natToHex, padLeft, hexDigitByte,
        List.replicate]
  · simp only [escape_byte, spec_escape_byte, hb, if_false]

theorem joinSep_cons (sep x : List Nat) (xs : List (List Nat)) :
    joinSep sep (x :: xs) = x ++ (xs.map (fun y => sep ++ y)).flatten := by
  induction xs generalizing x with
  | nil => simp [joinSep]
  | cons y rest ih => simp [joinSep, ih y, List.append_assoc]

theorem row_members_false (row : Row) :
    row_members false row = (row.map (fun kv => [44, 32] ++ spec_member kv)).flatten := by
  induction row with
  | nil => rfl
  | cons kv rest ih =>
      obtain ⟨k, v⟩ := kv
      simp [row_members, ih, spec_member, List.append_assoc]

/-- Claim C1: row_to_json serializes a Row as a brace-delimited JSON object
whose members appear in the Row order (insertion order), separated by the
exact two bytes comma-space, each member being the escaped, double-quoted
field name, a colon and space, and the serialized value. -/
theorem row_to_json_c1 (row : Row) :
    row_to_json row =
      [123] ++ joinSep [44, 32] (row.map spec_member) ++ [125] := by
  cases row with
  | nil => rfl
  | cons kv rest =>
      obtain ⟨k, v⟩ := kv
      have hfun : ((fun y => [44, 32] ++ y) ∘ spec_member :
          List Nat × Value → List Nat) = fun kv => [44, 32] ++ spec_member kv := rfl
      simp only [row_to_json, List.map_cons, joinSep_cons, List.map_map, hfun,
        row_members, row_members_false]
      simp [spec_member, List.append_assoc]

/-- Claim C2: escape_json_string maps the quote to backslash-quote, the
backslash to a doubled backslash, backspace, form-feed, newline, carriage
return and tab to their letter escapes, every other byte below 0x20 to a
four-hex-digit u-escape, and passes every other byte through unchanged. -/
theorem escape_json_string_c2 (s : List Nat) :
    escape_json_string s = spec_escape_string s := by
  have h : escape_byte = spec_escape_byte := funext escape_byte_eq_spec
  show (s.map escape_byte).flatten = (s.map spec_escape_byte).flatten
  rw [h]

/-- Character class of std::isspace in the C locale: space, tab, newline,
vertical tab, form feed, carriage return. -/
def cppIsSpace (c : Char) : Bool :=
  c = ' ' || c = '\t' || c = '
' || c.toNat = 11 || c.toNat = 12 || c = '\r'

/-- Numeric value of a run of decimal digit characters, most significant
first, as strtoull accumulates it. -/
def digitsVal (ds : List Char) : Nat :=
  ds.foldl (fun a c => 10 * a + (c.toNat - 48)) 0

/-- Exceptions std::stoull can throw. -/
inductive StoullError where
  | invalidArgument
  | outOfRange
deriving DecidableEq

/-- Sign handling of strtoull: strip one leading plus or minus sign,
remembering whether it was minus. -/
def stripSign : List Char → Bool × List Char
  | c :: rest =>
      if c == '-' then (true, rest)
      else if c == '+' then (false, rest)
      else (false, c :: rest)
  | [] => (false, [])

/-- Translation of std::stoull with base 10 as parse_args invokes it: skip
C-locale whitespace, accept one optional plus or minus sign, require at least
one decimal digit (std::invalid_argument otherwise), read the maximal digit
run and ignore everything after it, throw std::out_of_range when the digit
value exceeds the largest unsigned 64-bit value, and negate modulo 2^64 when
the sign was minus. -/
def stoull (s : String) : Except StoullError Nat :=
  let sr := stripSign (s.data.dropWhile cppIsSpace)
  let ds := sr.2.takeWhile Char.isDigit
  if ds = [] then .error .invalidArgument
  else if 2 ^ 64 ≤ digitsVal ds then .error .outOfRange
  else .ok (if sr.1 then (2 ^ 64 - digitsVal ds) % 2 ^ 64 else digitsVal ds)

/-- Parsed command line, as the Args struct of run.cpp, with its defaults
buffer = 1 and no cache_dir. -/
structure Args where
  data_file : String
  buffer : Nat
  cache_dir : Option String
deriving DecidableEq

/-- Ways parse_args can abort the process: an escaped stoull exception, or
the usage path for a missing positional argument. -/
inductive ParseError where
  | stoull (e : StoullError)
  | usage
deriving DecidableEq

/-- Byte-prefix test, as arg.rfind(p, 0) == 0 checks in run.cpp. -/
def strStartsWith (s p : String) : Bool := p.data.isPrefixOf s.data

/-- Translation of arg.substr(n), dropping the first n characters (the
prefixes dropped here are ASCII, so characters coincide with bytes). -/
def strDrop (n : Nat) (s : String) : String := String.mk (s.data.drop n)

/-- Translation of the argument loop of parse_args from run.cpp: a
--buffer=V or --buffer V value goes through stoull (a throw aborts the run),
a --cache_dir=V or --cache_dir V value is taken verbatim, a recognized flag
word in last position falls through to the positional list, and everything
else is positional.  The accumulator carries the current buffer value, the
cache_dir and the reversed positional list; the last-argument case inlines
the final iteration followed by loop exit. -/
def parseLoop : List String → Nat → Option String → List String →
    Except StoullError (Nat × Option String × List String)
  | [], buf, cd, pos => .ok (buf, cd, pos.reverse)
  | [arg], buf, cd, pos =>
    if strStartsWith arg "--buffer=" then
      (stoull (strDrop 9 arg)).bind fun n => .ok (n, cd, pos.reverse)
    else if strStartsWith arg "--cache_dir=" then
      .ok (buf, some (strDrop 12 arg), pos.reverse)
    else .ok (buf, cd, (arg :: pos).reverse)
  | arg :: next :: rest, buf, cd, pos =>
    if strStartsWith arg "--buffer=" then
      (stoull (strDrop 9 arg)).bind fun n => parseLoop (next :: rest) n cd pos
    else if arg = "--buffer" then
      (stoull next).bind fun n => parseLoop rest n cd pos
    else if strStartsWith arg "--cache_dir=" then
      parseLoop (next :: rest) buf (some (strDrop 12 arg)) pos
    else if arg = "--cache_dir" then
      parseLoop rest buf (some next) pos
    else parseLoop (next :: rest) buf cd (arg :: pos)

/-- Translation of parse_args from run.cpp: run the flag loop with the
defaults, fail through the usage path when no positional argument was
collected, else take the first positional as the data file. -/
def parse_args (argv : List String) : Except ParseError Args :=
  match parseLoop argv 1 none [] with
  | .error e => .error (.stoull e)
  | .ok (buf, cd, pos) =>
    match pos with
    | [] => .error .usage
    | p :: _ => .ok ⟨p, buf, cd⟩

/-- Positional (non-flag) arguments of a command line, exactly as the loop of
parse_args classifies them: recognized flag forms and their consumed values
are skipped, and a bare flag word in last position counts as positional. -/
def positionals : List String → List String
  | [] => []
  | [arg] =>
    if strStartsWith arg "--buffer=" then []
    else if strStartsWith arg "--cache_dir=" then []
    else [arg]
  | arg :: next :: rest =>
    if strStartsWith arg "--buffer=" then positionals (next :: rest)
    else if arg = "--buffer" then positionals rest
    else if strStartsWith arg "--cache_dir=" then positionals (next :: rest)
    else if arg = "--cache_dir" then positionals rest
    else arg :: positionals (next :: rest)

/-- Whether the argument loop of parse_args reaches a --buffer= or --buffer
flag form and assigns the buffer value, mirroring the loop's consumption: a
--buffer word consumed as another flag's value does not count, and neither
does a bare --buffer in last position (it is positional). -/
def setsBuffer : List String → Bool
  | [] => false
  | [arg] => strStartsWith arg "--buffer="
  | arg :: next :: rest =>
    if strStartsWith arg "--buffer=" then true
    else if arg = "--buffer" then true
    else if strStartsWith arg "--cache_dir=" then setsBuffer (next :: rest)
    else if arg = "--cache_dir" then setsBuffer rest
    else setsBuffer (next :: rest)

/-- Whether the argument loop of parse_args reaches a --cache_dir= or
--cache_dir flag form and assigns the cache_dir value, mirroring the loop's
consumption exactly as setsBuffer does for the buffer. -/
def setsCache : List String → Bool
  | [] => false
  | [arg] => strStartsWith arg "--cache_dir="
  | arg :: next :: rest =>
    if strStartsWith arg "--buffer=" then setsCache (next :: rest)
    else if arg = "--buffer" then setsCache rest
    else if strStartsWith arg "--cache_dir=" then true
    else if arg = "--cache_dir" then true
    else setsCache (next :: rest)

theorem isPrefixOf_self_append {α} [BEq α] [LawfulBEq α] :
    ∀ (l₁ l₂ : List α), l₁.isPrefixOf (l₁ ++ l₂) = true
  | [], _ => by simp
  | a :: t, l₂ => by
      simp [List.isPrefixOf_cons₂, isPrefixOf_self_append t l₂]

theorem isPrefixOf_append_left {α} [BEq α] :
    ∀ (l₁ l₂ l₃ : List α), (l₁ ++ l₂).isPrefixOf l₃ = true → l₁.isPrefixOf l₃ = true
  | [], _, _ => fun _ => by simp
  | a :: t, l₂, [] => fun h => by simp at h
  | a :: t, l₂, b :: t3 => fun h => by
      simp only [List.cons_append, List.isPrefixOf_cons₂, Bool.and_eq_true] at h ⊢
      exact ⟨h.1, isPrefixOf_append_left t l₂ t3 h.2⟩

theorem strStartsWith_buffer (s : String) (h : strStartsWith s "--buffer=" = true) :
    strStartsWith s "--buffer" = true := by
  have he : ("--buffer=" : String).data = ("--buffer" : String).data ++ ['='] := by
    decide
  unfold strStartsWith at h ⊢
  rw [he] at h
  exact isPrefixOf_append_left _ _ _ h

theorem strStartsWith_cache (s : String) (h : strStartsWith s "--cache_dir=" = true) :
    strStartsWith s "--cache_dir" = true := by
  have he : ("--cache_dir=" : String).data = ("--cache_dir" : String).data ++ ['='] := by
    decide
  unfold strStartsWith at h ⊢
  rw [he] at h
  exact isPrefixOf_append_left _ _ _ h

theorem getLastQ_cons {α} (a : α) (l : List α) (hl : l ≠ []) :
    (a :: l).getLast? = l.getLast? := by
  cases l with
  | nil => exact absurd rfl hl
  | cons b t => rfl

theorem bareBuffer_facts :
    strStartsWith "--buffer" "--buffer=" = false ∧
    strStartsWith "--buffer" "--cache_dir=" = false ∧
    strStartsWith "--cache_dir" "--buffer=" = false ∧
    strStartsWith "--cache_dir" "--cache_dir=" = false := by decide

theorem all_head {α} {f : α → Bool} {a : α} {l : List α}
    (h : (a :: l).all f = true) : f a = true := by
  simp only [List.all_cons, Bool.and_eq_true] at h
  exact h.1

theorem all_tail {α} {f : α → Bool} {a : α} {l : List α}
    (h : (a :: l).all f = true) : l.all f = true := by
  simp only [List.all_cons, Bool.and_eq_true] at h
  exact h.2

/-- Characterization of a successful flag scan: the collected positional list
extends the accumulator by the positional classification of the remaining
arguments, the buffer value is untouched when no argument carries the
--buffer prefix, and the cache_dir is untouched when no argument carries the
--cache_dir prefix. -/
theorem parseLoop_characterize :
    ∀ (argv : List String) (b : Nat) (c : Option String) (pos : List String)
      (b2 : Nat) (c2 : Option String) (p : List String),
      parseLoop argv b c pos = .ok (b2, c2, p) →
      p = pos.reverse ++ positionals argv ∧
      (argv.all (fun s => !strStartsWith s "--buffer") = true → b2 = b) ∧
      (argv.all (fun s => !strStartsWith s "--cache_dir") = true → c2 = c)
  | [], b, c, pos, b2, c2, p => by
      intro h
      simp only [parseLoop, Except.ok.injEq, Prod.mk.injEq] at h
      obtain ⟨hb, hc, hp⟩ := h
      subst hb; subst hc; subst hp
      simp [positionals]
  | [arg], b, c, pos, b2, c2, p => by
      intro h
      simp only [parseLoop] at h
      split at h
      · rename_i h1
        cases hst : stoull (strDrop 9 arg) with
        | error e => rw [hst] at h; simp [Except.bind] at h
        | ok n =>
            rw [hst] at h
            simp only [Except.bind, Except.ok.injEq, Prod.mk.injEq] at h
            obtain ⟨hb, hc, hp⟩ := h
            refine ⟨by simp [positionals, h1, ← hp], ?_, fun _ => hc.symm⟩
            intro hall
            have := all_head hall
            rw [strStartsWith_buffer arg h1] at this
            simp at this
      · rename_i h1
        split at h
        · rename_i h3
          simp only [Except.ok.injEq, Prod.mk.injEq] at h
          obtain ⟨hb, hc, hp⟩ := h
          refine ⟨by simp [positionals, h1, h3, ← hp], fun _ => hb.symm, ?_⟩
          intro hall
          have := all_head hall
          rw [strStartsWith_cache arg h3] at this
          simp at this
        · rename_i h3
          simp only [Except.ok.injEq, Prod.mk.injEq] at h
          obtain ⟨hb, hc, hp⟩ := h
          refine ⟨?_, fun _ => hb.symm, fun _ => hc.symm⟩
          simp [positionals, h1, h3, ← hp, List.reverse_cons]
  | arg :: next :: rest, b, c, pos, b2, c2, p => by
      intro h
      simp only [parseLoop] at h
      split at h
      · rename_i h1
        cases hst : stoull (strDrop 9 arg) with
        | error e => rw [hst] at h; simp [Except.bind] at h
        | ok n =>
            rw [hst] at h
            simp only [Except.bind] at h
            obtain ⟨hp, hb, hc⟩ :=
              parseLoop_characterize (next :: rest) n c pos b2 c2 p h
            refine ⟨by simp [positionals, h1, hp], ?_, ?_⟩
            · intro hall
              have := all_head hall
              rw [strStartsWith_buffer arg h1] at this
              simp at this
            · intro hall
              exact hc (all_tail hall)
      · rename_i h1
        split at h
        · rename_i h2
          cases hst : stoull next with
          | error e => rw [hst] at h; simp [Except.bind] at h
          | ok n =>
              rw [hst] at h
              simp only [Except.bind] at h
              obtain ⟨hp, hb, hc⟩ :=
                parseLoop_characterize rest n c pos b2 c2 p h
              refine ⟨by simp [positionals, h1, h2, hp, bareBuffer_facts.1], ?_, ?_⟩
              · intro hall
                have := all_head hall
                have hrefl : strStartsWith "--buffer" "--buffer" = true := by decide
                rw [h2, hrefl] at this
                simp at this
              · intro hall
                exact hc (all_tail (all_tail hall))
        · rename_i h2
          split at h
          · rename_i h3
            obtain ⟨hp, hb, hc⟩ :=
              parseLoop_characterize (next :: rest) b (some (strDrop 12 arg)) pos b2 c2 p h
            refine ⟨by simp [positionals, h1, h2, h3, hp], ?_, ?_⟩
            · intro hall
              exact hb (all_tail hall)
            · intro hall
              have := all_head hall
              rw [strStartsWith_cache arg h3] at this
              simp at this
          · rename_i h3
            split at h
            · rename_i h4
              obtain ⟨hp, hb, hc⟩ :=
                parseLoop_characterize rest b (some next) pos b2 c2 p h
              refine ⟨by simp [positionals, h1, h2, h3, h4, hp, bareBuffer_facts.2.2.1,
                bareBuffer_facts.2.2.2], ?_, ?_⟩
              · intro hall
                exact hb (all_tail (all_tail hall))
              · intro hall
                have := all_head hall
                have hrefl : strStartsWith "--cache_dir" "--cache_dir" = true := by
                  decide
                rw [h4, hrefl] at this
                simp at this
            · rename_i h4
              obtain ⟨hp, hb, hc⟩ :=
                parseLoop_characterize (next :: rest) b c (arg :: pos) b2 c2 p h
              refine ⟨?_, ?_, ?_⟩
              · rw [hp]
                simp [positionals, h1, h2, h3, h4, List.reverse_cons,
                  List.append_assoc]
              · intro hall
                exact hb (all_tail hall)
              · intro hall
                exact hc (all_tail hall)

/-- Defaults of a successful flag scan: the buffer value is untouched unless
the scan reached a --buffer flag form, and the cache_dir is untouched unless
it reached a --cache_dir flag form. -/
theorem parseLoop_defaults :
    ∀ (argv : List String) (b : Nat) (c : Option String) (pos : List String)
      (b2 : Nat) (c2 : Option String) (p : List String),
      parseLoop argv b c pos = .ok (b2, c2, p) →
      (setsBuffer argv = false → b2 = b) ∧
      (setsCache argv = false → c2 = c)
  | [], b, c, pos, b2, c2, p => by
      intro h
      simp only [parseLoop, Except.ok.injEq, Prod.mk.injEq] at h
      obtain ⟨hb, hc, hp⟩ := h
      exact ⟨fun _ => hb.symm, fun _ => hc.symm⟩
  | [arg], b, c, pos, b2, c2, p => by
      intro h
      simp only [parseLoop] at h
      split at h
      · rename_i h1
        cases hst : stoull (strDrop 9 arg) with
        | error e => rw [hst] at h; simp [Except.bind] at h
        | ok n =>
            rw [hst] at h
            simp only [Except.bind, Except.ok.injEq, Prod.mk.injEq] at h
            obtain ⟨hb, hc, hp⟩ := h
            constructor
            · intro hsb
              simp only [setsBuffer] at hsb
              rw [h1] at hsb
              exact Bool.noConfusion hsb
            · intro _
              exact hc.symm
      · rename_i h1
        split at h
        · rename_i h3
          simp only [Except.ok.injEq, Prod.mk.injEq] at h
          obtain ⟨hb, hc, hp⟩ := h
          constructor
          · intro _
            exact hb.symm
          · intro hsc
            simp only [setsCache] at hsc
            rw [h3] at hsc
            exact Bool.noConfusion hsc
        · rename_i h3
          simp only [Except.ok.injEq, Prod.mk.injEq] at h
          obtain ⟨hb, hc, hp⟩ := h
          exact ⟨fun _ => hb.symm, fun _ => hc.symm⟩
  | arg :: next :: rest, b, c, pos, b2, c2, p => by
      intro h
      simp only [parseLoop] at h
      split at h
      · rename_i h1
        cases hst : stoull (strDrop 9 arg) with
        | error e => rw [hst] at h; simp [Except.bind] at h
        | ok n =>
            rw [hst] at h
            simp only [Except.bind] at h
            obtain ⟨hb, hc⟩ :=
              parseLoop_defaults (next :: rest) n c pos b2 c2 p h
            constructor
            · intro hsb
              simp only [setsBuffer] at hsb
              rw [if_pos h1] at hsb
              exact Bool.noConfusion hsb
            · intro hsc
              apply hc
              simp only [setsCache] at hsc
              rw [if_pos h1] at hsc
              exact hsc
      · rename_i h1
        split at h
        · rename_i h2
          cases hst : stoull next with
          | error e => rw [hst] at h; simp [Except.bind] at h
          | ok n =>
              rw [hst] at h
              simp only [Except.bind] at h
              obtain ⟨hb, hc⟩ := parseLoop_defaults rest n c pos b2 c2 p h
              constructor
              · intro hsb
                simp only [setsBuffer] at hsb
                rw [if_neg h1, if_pos h2] at hsb
                exact Bool.noConfusion hsb
              · intro hsc
                apply hc
                simp only [setsCache] at hsc
                rw [if_neg h1, if_pos h2] at hsc
                exact hsc
        · rename_i h2
          split at h
          · rename_i h3
            obtain ⟨hb, hc⟩ :=
              parseLoop_defaults (next :: rest) b (some (strDrop 12 arg)) pos
                b2 c2 p h
            constructor
            · intro hsb
              apply hb
              simp only [setsBuffer] at hsb
              rw [if_neg h1, if_neg h2, if_pos h3] at hsb
              exact hsb
            · intro hsc
              simp only [setsCache] at hsc
              rw [if_neg h1, if_neg h2, if_pos h3] at hsc
              exact Bool.noConfusion hsc
          · rename_i h3
            split at h
            · rename_i h4
              obtain ⟨hb, hc⟩ :=
                parseLoop_defaults rest b (some next) pos b2 c2 p h
              constructor
              · intro hsb
                apply hb
                simp only [setsBuffer] at hsb
                rw [if_neg h1, if_neg h2, if_neg h3, if_pos h4] at hsb
                exact hsb
              · intro hsc
                simp only [setsCache] at hsc
                rw [if_neg h1, if_neg h2, if_neg h3, if_pos h4] at hsc
                exact Bool.noConfusion hsc
            · rename_i h4
              obtain ⟨hb, hc⟩ :=
                parseLoop_defaults (next :: rest) b c (arg :: pos) b2 c2 p h
              constructor
              · intro hsb
                apply hb
                simp only [setsBuffer] at hsb
                rw [if_neg h1, if_neg h2, if_neg h3, if_neg h4] at hsb
                exact hsb
              · intro hsc
                apply hc
                simp only [setsCache] at hsc
                rw [if_neg h1, if_neg h2, if_neg h3, if_neg h4] at hsc
                exact hsc

theorem getLastQ_singleton (a : String) : [a].getLast? = some a := by simp

theorem lastP_tail {P : String → Prop} {a : String} {l : List String}
    (h : ∀ s, (a :: l).getLast? = some s → P s) :
    ∀ s, l.getLast? = some s → P s := by
  intro s hs
  have hne : l ≠ [] := by
    intro he; rw [he] at hs; exact Option.noConfusion hs
  exact h s (by rw [getLastQ_cons a l hne]; exact hs)

/-- Appending one argument that is not a value-carrying flag form to a
command line whose last argument is not a bare flag word appends it to the
collected positional list and changes nothing else. -/
theorem parseLoop_append (q : String) (hq1 : strStartsWith q "--buffer=" = false)
    (hq2 : strStartsWith q "--cache_dir=" = false) :
    ∀ (argv : List String) (b : Nat) (c : Option String) (pos : List String)
      (b2 : Nat) (c2 : Option String) (p : List String),
      (∀ s, argv.getLast? = some s → s ≠ "--buffer" ∧ s ≠ "--cache_dir") →
      parseLoop argv b c pos = .ok (b2, c2, p) →
      parseLoop (argv ++ [q]) b c pos = .ok (b2, c2, p ++ [q])
  | [], b, c, pos, b2, c2, p => by
      intro hlast h
      simp only [parseLoop, Except.ok.injEq, Prod.mk.injEq] at h
      obtain ⟨hb, hc, hp⟩ := h
      subst hb; subst hc; subst hp
      have hq1n : ¬(strStartsWith q "--buffer=" = true) := by simp [hq1]
      have hq2n : ¬(strStartsWith q "--cache_dir=" = true) := by simp [hq2]
      simp only [List.nil_append, parseLoop]
      rw [if_neg hq1n, if_neg hq2n]
      simp [List.reverse_cons]
  | [arg], b, c, pos, b2, c2, p => by
      intro hlast h
      have harg := hlast arg (getLastQ_singleton arg)
      have hq1n : ¬(strStartsWith q "--buffer=" = true) := by simp [hq1]
      have hq2n : ¬(strStartsWith q "--cache_dir=" = true) := by simp [hq2]
      simp only [parseLoop] at h
      simp only [List.cons_append, List.nil_append, parseLoop]
      split at h
      · rename_i h1
        rw [if_pos h1]
        cases hst : stoull (strDrop 9 arg) with
        | error e => rw [hst] at h; simp [Except.bind] at h
        | ok n =>
            rw [hst] at h
            simp only [Except.bind, Except.ok.injEq, Prod.mk.injEq] at h
            obtain ⟨hb, hc, hp⟩ := h
            subst hb; subst hc
            simp only [Except.bind, parseLoop]
            rw [if_neg hq1n, if_neg hq2n]
            simp [← hp, List.reverse_cons]
      · rename_i h1
        split at h
        · rename_i h3
          simp only [Except.ok.injEq, Prod.mk.injEq] at h
          obtain ⟨hb, hc, hp⟩ := h
          subst hb; subst hc
          rw [if_neg h1, if_neg harg.1, if_pos h3]
          rw [if_neg hq1n, if_neg hq2n]
          simp [← hp, List.reverse_cons]
        · rename_i h3
          simp only [Except.ok.injEq, Prod.mk.injEq] at h
          obtain ⟨hb, hc, hp⟩ := h
          subst hb; subst hc
          rw [if_neg h1, if_neg harg.1, if_neg h3, if_neg harg.2]
          rw [if_neg hq1n, if_neg hq2n]
          simp [← hp, List.reverse_cons]
  | arg :: next :: rest, b, c, pos, b2, c2, p => by
      intro hlast h
      have hlast2 := lastP_tail hlast
      simp only [parseLoop] at h
      simp only [List.cons_append, parseLoop]
      split at h
      · rename_i h1
        rw [if_pos h1]
        cases hst : stoull (strDrop 9 arg) with
        | error e => rw [hst] at h; simp [Except.bind] at h
        | ok n =>
            rw [hst] at h
            simp only [Except.bind] at h
            simp only [Except.bind]
            have := parseLoop_append q hq1 hq2 (next :: rest) n c pos b2 c2 p hlast2 h
            simpa [List.cons_append] using this
      · rename_i h1
        split at h
        · rename_i h2
          rw [if_neg h1, if_pos h2]
          cases hst : stoull next with
          | error e => rw [hst] at h; simp [Except.bind] at h
          | ok n =>
              rw [hst] at h
              simp only [Except.bind] at h
              simp only [Except.bind]
              exact parseLoop_append q hq1 hq2 rest n c pos b2 c2 p
                (lastP_tail hlast2) h
        · rename_i h2
          split at h
          · rename_i h3
            rw [if_neg h1, if_neg h2, if_pos h3]
            have := parseLoop_append q hq1 hq2 (next :: rest) b
              (some (strDrop 12 arg)) pos b2 c2 p hlast2 h
            simpa [List.cons_append] using this
          · rename_i h3
            split at h
            · rename_i h4
              rw [if_neg h1, if_neg h2, if_neg h3, if_pos h4]
              exact parseLoop_append q hq1 hq2 rest b (some next) pos b2 c2 p
                (lastP_tail hlast2) h
            · rename_i h4
              rw [if_neg h1, if_neg h2, if_neg h3, if_neg h4]
              have := parseLoop_append q hq1 hq2 (next :: rest) b c
                (arg :: pos) b2 c2 p hlast2 h
              simpa [List.cons_append] using this

theorem strStartsWith_append_self (p s : String) : strStartsWith (p ++ s) p = true := by
  obtain ⟨pd⟩ := p
  obtain ⟨sd⟩ := s
  exact isPrefixOf_self_append pd sd

theorem strDrop_bufferEq (s : String) : strDrop 9 ("--buffer=" ++ s) = s := by
  obtain ⟨sd⟩ := s
  show String.mk ((("--buffer=" : String).data ++ sd).drop 9) = String.mk sd
  have h9 : ("--buffer=" : String).data.length = 9 := by decide
  rw [← h9, List.drop_left]

/-- Spec reading of the amended acceptance rule for a --buffer value: after
optional C-locale whitespace and one optional plus or minus sign, at least
one decimal digit must follow, and the value of the digit run must be at most
the largest unsigned 64-bit integer; everything after the digit run is
ignored. -/
def stoullAccepts (s : String) : Bool :=
  let t2 := (stripSign (s.data.dropWhile cppIsSpace)).2
  let ds := t2.takeWhile Char.isDigit
  !ds.isEmpty && decide (digitsVal ds < 2 ^ 64)

theorem stoull_ok_iff (s : String) :
    (∃ n, stoull s = .ok n) ↔ stoullAccepts s = true := by
  unfold stoull stoullAccepts
  dsimp only
  set ds := (stripSign (s.data.dropWhile cppIsSpace)).2.takeWhile Char.isDigit
    with hds_def
  by_cases hds : ds = []
  · rw [if_pos hds]
    constructor
    · rintro ⟨n, hn⟩; exact Except.noConfusion hn
    · intro hacc
      rw [hds] at hacc
      simp at hacc
  · rw [if_neg hds]
    have hne : ds.isEmpty = false := by
      cases hds2 : ds with
      | nil => exact absurd hds2 hds
      | cons d dt => rfl
    by_cases hr : 2 ^ 64 ≤ digitsVal ds
    · rw [if_pos hr]
      constructor
      · rintro ⟨n, hn⟩; exact Except.noConfusion hn
      · intro hacc
        have h2 := ((Bool.and_eq_true _ _).mp hacc).2
        have h3 := of_decide_eq_true h2
        exact absurd hr (Nat.not_le.mpr h3)
    · rw [if_neg hr]
      constructor
      · intro _
        refine (Bool.and_eq_true _ _).mpr
          ⟨?_, decide_eq_true (Nat.lt_of_not_le hr)⟩
        rw [hne]; rfl
      · intro _
        exact ⟨_, rfl⟩

/-- Claim-side reading of the original C5 wording, a value that parses as a
non-negative integer: one or more decimal digits, optionally preceded by a
plus sign (a minus sign would make the value negative). -/
def isNonNegIntLiteral (s : String) : Bool :=
  let t := match s.data with
    | c :: rest => if c == '+' then rest else s.data
    | [] => []
  !t.isEmpty && t.all Char.isDigit

/-- Counterexample to claim C5 as stated: the value -1 does not parse as a
non-negative integer, yet parse_args accepts --buffer=-1 rather than
aborting: std::stoull wraps it modulo 2^64 to 18446744073709551615. -/
theorem parse_args_c5_cex :
    isNonNegIntLiteral "-1" = false ∧
    parse_args ["data.bin", "--buffer=-1"] =
      .ok ⟨"data.bin", 18446744073709551615, none⟩ :=
  ⟨rfl, rfl⟩

/-- Claim C5 (amended): a --buffer value, in either flag form, is parsed by
the stoull semantics and never silently defaulted: the run succeeds with
exactly the stoull result as the buffer size when stoull accepts the value,
and aborts with the propagated stoull failure otherwise; and stoull accepts
the value exactly when, after optional whitespace and one optional sign, at
least one decimal digit follows whose run value fits in unsigned 64 bits
(trailing non-digits ignored, a minus sign wrapping modulo 2^64). -/
theorem parse_args_c5 (s : String) :
    parse_args ["data.bin", "--buffer=" ++ s] =
      (match stoull s with
       | .ok n => .ok ⟨"data.bin", n, none⟩
       | .error e => .error (.stoull e)) ∧
    parse_args ["data.bin", "--buffer", s] =
      (match stoull s with
       | .ok n => .ok ⟨"data.bin", n, none⟩
       | .error e => .error (.stoull e)) ∧
    ((∃ n, stoull s = .ok n) ↔ stoullAccepts s = true) := by
  have hd1 : ¬(strStartsWith "data.bin" "--buffer=" = true) := by decide
  have hd2 : ¬("data.bin" = "--buffer") := by decide
  have hd3 : ¬(strStartsWith "data.bin" "--cache_dir=" = true) := by decide
  have hd4 : ¬("data.bin" = "--cache_dir") := by decide
  refine ⟨?_, ?_, stoull_ok_iff s⟩
  · have hb : strStartsWith ("--buffer=" ++ s) "--buffer=" = true :=
      strStartsWith_append_self _ s
    simp only [parse_args, parseLoop]
    rw [if_neg hd1, if_neg hd2, if_neg hd3, if_neg hd4, if_pos hb,
      strDrop_bufferEq]
    cases hst : stoull s with
    | ok n => simp [Except.bind]
    | error e => simp [Except.bind]
  · have hb1 : ¬(strStartsWith "--buffer" "--buffer=" = true) := by decide
    simp only [parse_args, parseLoop]
    rw [if_neg hd1, if_neg hd2, if_neg hd3, if_neg hd4, if_neg hb1]
    cases hst : stoull s with
    | ok n => simp [Except.bind]
    | error e => simp [Except.bind]

/-- Counterexample to claim C4 as stated: the command line --buffer=x has no
positional (non-flag) argument, yet the program does not print the usage
message and exit with code 1: the stoull call throws std::invalid_argument
first, aborting the process inside the flag loop. -/
theorem parse_args_c4_cex :
    positionals ["--buffer=x"] = [] ∧
    parse_args ["--buffer=x"] = .error (.stoull .invalidArgument) ∧
    parse_args ["--buffer=x"] ≠ .error .usage := by
  refine ⟨rfl, rfl, ?_⟩
  intro hcontra
  have h1 : parse_args ["--buffer=x"] = .error (.stoull .invalidArgument) := rfl
  rw [h1] at hcontra
  exact ParseError.noConfusion (Except.error.inj hcontra)

/-- Claim C4 (amended): on every command line with no positional (non-flag)
argument on which the flag scan completes (every --buffer value parses), the
program prints the usage message to standard error and exits with code 1,
producing no row output. -/
theorem parse_args_c4 (argv : List String) (b : Nat) (c : Option String)
    (p : List String) (hok : parseLoop argv 1 none [] = .ok (b, c, p))
    (hnopos : positionals argv = []) :
    parse_args argv = .error .usage := by
  have hp := (parseLoop_characterize argv 1 none [] b c p hok).1
  rw [hnopos] at hp
  simp only [List.reverse_nil, List.append_nil] at hp
  subst hp
  simp [parse_args, hok]

/-- Witness for C4: the command line --buffer 7 has no positional argument,
its flag scan completes, and parse_args takes the usage path. -/
theorem parse_args_c4_witness : parse_args ["--buffer", "7"] = .error .usage :=
  parse_args_c4 ["--buffer", "7"] 7 none [] rfl rfl

/-- Claim C10: for every accepted command line, buffer is 1 unless a
--buffer or --buffer= flag set it (setsBuffer mirrors exactly the loop
states that assign the buffer, so a --buffer word consumed as another flag
value or sitting bare in last position does not count), cache_dir is absent
unless a --cache_dir or --cache_dir= flag set it, data_file is the first positional
(non-flag) argument, and a further positional argument appended to the
command line is accepted with the same result, so extra positionals are
silently ignored; in particular a trailing bare --buffer or --cache_dir is
itself accepted as a positional. -/
theorem parse_args_c10 (argv : List String) (a : Args)
    (h : parse_args argv = .ok a) :
    (setsBuffer argv = false → a.buffer = 1) ∧
    (setsCache argv = false → a.cache_dir = none) ∧
    (positionals argv).head? = some a.data_file ∧
    (∀ q : String, strStartsWith q "--buffer=" = false →
      strStartsWith q "--cache_dir=" = false →
      (∀ s, argv.getLast? = some s → s ≠ "--buffer" ∧ s ≠ "--cache_dir") →
      parse_args (argv ++ [q]) = .ok a) := by
  unfold parse_args at h
  cases hpl : parseLoop argv 1 none [] with
  | error e => rw [hpl] at h; simp at h
  | ok r =>
      rw [hpl] at h
      obtain ⟨b, c, pos⟩ := r
      cases pos with
      | nil => simp at h
      | cons p0 ps =>
          simp only [Except.ok.injEq] at h
          subst h
          obtain ⟨hpos, hall1, hall2⟩ :=
            parseLoop_characterize argv 1 none [] b c (p0 :: ps) hpl
          obtain ⟨hbdef, hcdef⟩ :=
            parseLoop_defaults argv 1 none [] b c (p0 :: ps) hpl
          simp only [List.reverse_nil, List.nil_append] at hpos
          refine ⟨hbdef, hcdef, ?_, ?_⟩
          · rw [← hpos]; rfl
          · intro q hq1 hq2 hlast
            have happ :=
              parseLoop_append q hq1 hq2 argv 1 none [] b c (p0 :: ps) hlast hpl
            unfold parse_args
            rw [happ]
            rfl

/-- Witness for C10: a data file alone parses with the defaults, and an
appended extra positional argument is ignored. -/
theorem parse_args_c10_witness :
    parse_args ["data.bin", "extra"] = .ok ⟨"data.bin", 1, none⟩ := by
  refine (parse_args_c10 ["data.bin"] ⟨"data.bin", 1, none⟩ rfl).2.2.2
    "extra" (by decide) (by decide) ?_
  intro s hs
  have hs2 : "data.bin" = s := by simpa using hs
  subst hs2
  exact ⟨by decide, by decide⟩

/-- Modelled from the spec: the buffering layer of DynamicPreprocessor is in
the missing dynamic_preprocessor.h; spec section 4.3 defines it.  Here n + 1
is the configured window size N ≥ 1.  next() pops the oldest buffered row
when the window is non-empty; otherwise it fills the window with up to N rows
from the source and pops; when both are empty the stream ends.  emitRows
drives next() to exhaustion, as the while loop of main does, listing the rows
in the order they are returned. -/
def emitRows (n : Nat) : List Row → List Row → List Row
  | r :: w, src => r :: emitRows n w src
  | [], [] => []
  | [], s :: src => s :: emitRows n (src.take n) (src.drop n)
termination_by w src => w.length + src.length
decreasing_by
  all_goals simp only [List.length_cons, List.length_take, List.length_drop]
  all_goals omega

theorem emitRows_window (n : Nat) :
    ∀ (w src : List Row), emitRows n w src = w ++ emitRows n [] src := by
  intro w
  induction w with
  | nil => intro src; simp
  | cons r w ih =>
      intro src
      simp only [emitRows, ih src, List.cons_append]

theorem emitRows_nil (n : Nat) : ∀ (src : List Row), emitRows n [] src = src
  | [] => by simp only [emitRows]
  | s :: src => by
      rw [show emitRows n [] (s :: src)
            = s :: emitRows n (src.take n) (src.drop n) from by
          simp only [emitRows]]
      rw [emitRows_window n (src.take n) (src.drop n)]
      rw [emitRows_nil n (src.drop n)]
      rw [List.take_append_drop]
termination_by src => src.length
decreasing_by simp only [List.length_drop, List.length_cons]; omega

/-- Modelled from the spec: one full pull of the preprocessor over a source
of rows with configured buffer window N, starting from an empty window. -/
def ppRun (N : Nat) (source : List Row) : List Row :=
  emitRows (N - 1) [] source

/-- Claim C8: for every buffer size N ≥ 1 and every source, driving next()
to exhaustion yields exactly the source rows, in source order; in particular
neither the count nor the order of the observed rows depends on N. -/
theorem ppRun_c8 (n : Nat) (source : List Row) : ppRun (n + 1) source = source := by
  simp only [ppRun, Nat.add_sub_cancel]
  exact emitRows_nil n source

/-- Bytes of the start banner, three dashes, newline, STARTING, newline,
three dashes, followed by the newline that std::endl appends. -/
def banner : List Nat :=
  [45, 45, 45, 10, 83, 84, 65, 82, 84, 73, 78, 71, 10, 45, 45, 45, 10]

/-- Bytes of one output line of the row loop of main: the serialized row plus
the newline of std::endl. -/
def rowLine (r : Row) : List Nat := row_to_json r ++ [10]

/-- Translation of the output of main on a successful run over the modelled
preprocessor: the banner, then one line per row returned by the next() loop. -/
def main_stdout (N : Nat) (source : List Row) : List Nat :=
  banner ++ ((ppRun N source).map rowLine).flatten

/-- Claim C7: on a successful run, stdout is the banner exactly once at the
start, followed by exactly one JSON line per source row in source order, and
nothing after the last row line (no trailing summary). -/
theorem main_stdout_c7 (n : Nat) (source : List Row) :
    main_stdout (n + 1) source = banner ++ (source.map rowLine).flatten := by
  simp only [main_stdout, ppRun_c8]

/-- Modelled from the spec: the cache layer (spec section 4.4) is in the
missing dynamic_preprocessor.h.  A cache artifact stores the decoded rows of
one source in order; a run with a warm cache serves the stored rows, a cold
run decodes through the buffering layer and stores exactly the rows it
emitted.  The result is the stdout bytes paired with the cache state after
the run. -/
def runWithCache (N : Nat) (source : List Row) (cache : Option (List Row)) :
    List Nat × Option (List Row) :=
  match cache with
  | some rows => (banner ++ (rows.map rowLine).flatten, some rows)
  | none =>
      (banner ++ ((ppRun N source).map rowLine).flatten, some (ppRun N source))

/-- Claim C9: with the same data file and buffer size, a second run with the
same cache directory produces byte-identical stdout whether or not the cache
was warm, and the cache-serving path is observationally equivalent on stdout
to the decode-from-source path. -/
theorem runWithCache_c9 (n : Nat) (source : List Row)
    (cache : Option (List Row)) :
    (runWithCache (n + 1) source ((runWithCache (n + 1) source cache).2)).1 =
      (runWithCache (n + 1) source cache).1 ∧
    (runWithCache (n + 1) source (some (ppRun (n + 1) source))).1 =
      (runWithCache (n + 1) source none).1 := by
  cases cache <;> simp [runWithCache]

/-- Failure modes of a run: an aborted argument parse, or a ConfigError from
preprocessor construction. -/
inductive RunError where
  | parse (e : ParseError)
  | config
deriving DecidableEq

/-- Modelled from the spec: DynamicPreprocessor construction (spec section
4.2, taken by main before open is called) fails with ConfigError when
bufferSize is zero, before any source is opened or any row is emitted. -/
def constructPreprocessor (bufferSize : Nat) : Except RunError Unit :=
  if bufferSize = 0 then .error .config else .ok ()

/-- Translation of main over the modelled preprocessor: parse the arguments
(a parse abort stops the run), construct the preprocessor (a ConfigError
stops the run before the banner), then emit the banner and the rows. -/
def run_program (argv : List String) (source : List Row) :
    Except RunError (List Nat) :=
  match parse_args argv with
  | .error e => .error (.parse e)
  | .ok args =>
    match constructPreprocessor args.buffer with
    | .error e => .error e
    | .ok _ => .ok (main_stdout args.buffer source)

/-- Claim C6: whenever the parsed configuration carries buffer size zero (as
--buffer 0 produces), preprocessor construction fails with ConfigError and
the run stops before any output, emitting no row. -/
theorem run_program_c6 (argv : List String) (source : List Row) (a : Args)
    (h : parse_args argv = .ok a) (hb : a.buffer = 0) :
    run_program argv source = .error .config := by
  unfold run_program
  rw [h]
  dsimp only
  rw [hb]
  rfl

/-- Witness for C6: the command line data.bin --buffer 0 parses to buffer
size zero and the run fails with ConfigError on the empty source. -/
theorem run_program_c6_witness :
    run_program ["data.bin", "--buffer", "0"] [] = .error .config :=
  run_program_c6 ["data.bin", "--buffer", "0"] [] ⟨"data.bin", 0, none⟩ rfl rfl

end DynBuf
